import Mathlib

/-!
# Verification of the FrEIA fixed-transform layers

Shallow embedding of `FrEIA/modules/fixed_transforms.py`: the four layer
classes `PermuteRandom`, `FixedLinearTransform`, `LogitTransform` and
`Fixed1x1Conv`, their `forward`, `jacobian` and `output_dims` methods, the
failing `LogitTransform` constructor, and the `_deprecated_by` aliases.

Tensors are modelled as functions out of `Fin`-indexed types with exact
(rational or real) arithmetic; the mutable Python object is modelled by a
state record, and every method is written in state-passing style
`state → input → rev → state × output`, so that Python's in-place field
writes (which only `LogitTransform.forward` performs) are visible in the
returned state.
-/

open scoped BigOperators Matrix

namespace FrEIA

/-! ## LogitTransform

Source: class `LogitTransform` in `fixed_transforms.py`.  Its mutable
fields after `__init__` would be `scaling` and `last_jac` (the field
`mine` is never set because its initializer raises, see below). -/

/-- The fields of a `LogitTransform` object: `self.scaling` and
`self.last_jac` (initially the Python int `0`). -/
structure LogitSt where
  scaling : ℝ
  last_jac : ℝ

/-- `torch.sigmoid`: `1 / (1 + exp(-t))`. -/
noncomputable def sigmoid (t : ℝ) : ℝ := 1 / (1 + Real.exp (-t))

/-- The local helper `safe_log` inside `LogitTransform.forward`:
`torch.log(x.clamp(min=1e-22))`. -/
noncomputable def safe_log (x : ℝ) : ℝ := Real.log (max x 1e-22)

namespace LogitTransform

/-- `LogitTransform.forward` on a single sample vector `x : Fin n → ℝ`.
`rev=False`: scale `z = ((2*x - 1)*scaling + 1)/2`, return
`safe_log(z) - safe_log(1-z)` and overwrite `self.last_jac` with
`(-safe_log(z) - safe_log(1-z)).sum(-1)`.
`rev=True`: return `torch.sigmoid(x)` and overwrite `self.last_jac` with
`(safe_log(z) + safe_log(1-z)).sum(-1)`. -/
noncomputable def forward {n : ℕ} (st : LogitSt) (x : Fin n → ℝ) (rev : Bool) :
    LogitSt × (Fin n → ℝ) :=
  if !rev then
    let z : Fin n → ℝ := fun i => ((2 * x i - 1) * st.scaling + 1) / 2
    ({ st with last_jac := ∑ i, (-safe_log (z i) - safe_log (1 - z i)) },
     fun i => safe_log (z i) - safe_log (1 - z i))
  else
    let z : Fin n → ℝ := fun i => sigmoid (x i)
    ({ st with last_jac := ∑ i, (safe_log (z i) + safe_log (1 - z i)) }, z)

/-- `LogitTransform.jacobian`: returns the cached `self.last_jac`,
touching no field. -/
noncomputable def jacobian {n : ℕ} (st : LogitSt) (_x : Fin n → ℝ) (_rev : Bool) :
    LogitSt × ℝ :=
  (st, st.last_jac)

/-- `LogitTransform.output_dims`: returns `input_dims` unchanged. -/
def output_dims (input_dims : List (List ℕ)) : List (List ℕ) := input_dims

end LogitTransform

/-! ### The LogitTransform constructor

`LogitTransform.__init__` executes `self.scaling = scaling`,
`self.last_jac = 0` and then `self.mine = mine`.  The name `mine` is not a
local, not a global of the module and not a builtin, so the lookup raises
`NameError` and the constructor never returns an object. -/

/-- A Python exception, as far as this module can raise one in
`LogitTransform.__init__`. -/
inductive PyError where
  | nameError : String → PyError
deriving DecidableEq

/-- The global names bound at module level in `fixed_transforms.py`
(imports, the four classes, `warnings`, the decorator and the three
aliases).  `mine` is not among them. -/
def fixedTransformsGlobals : List String :=
  ["np", "torch", "nn", "F",
   "PermuteRandom", "FixedLinearTransform", "LogitTransform", "Fixed1x1Conv",
   "warnings", "_deprecated_by", "permute_layer", "linear_transform", "conv_1x1"]

/-- Name lookup in the module's global namespace. -/
def lookupGlobal (s : String) : Option Unit :=
  if s ∈ fixedTransformsGlobals then some () else none

/-- `LogitTransform.__init__(dims_in, scaling=0.99)`: sets `scaling` and
`last_jac`, then evaluates the free name `mine`; if the lookup fails the
whole construction raises `NameError` and no object is produced. -/
def LogitTransform.init (_dims_in : List (List ℕ)) (scaling : ℝ) :
    Except PyError LogitSt :=
  match lookupGlobal "mine" with
  | some _ => Except.ok { scaling := scaling, last_jac := 0 }
  | none => Except.error (PyError.nameError "name mine is not defined")

/-! ## PermuteRandom

Source: class `PermuteRandom`.  `__init__` draws `self.perm` as a random
permutation of `in_channels` (modelled as an arbitrary permutation
`σ : Equiv.Perm (Fin n)`, which is exactly what `np.random.permutation`
returns) and builds `self.perm_inv` by the loop
`for i, p in enumerate(self.perm): self.perm_inv[p] = i` over a
zero-initialized array. -/

/-- The fields of a `PermuteRandom` object: the stored index tensors
`perm` and `perm_inv`. -/
structure PermuteRandomSt (n : ℕ) where
  perm : Fin n → Fin n
  perm_inv : Fin n → Fin n

/-- The construction loop for `self.perm_inv`: starting from
`np.zeros_like(self.perm)`, write `perm_inv[perm[i]] = i` for each `i`
in order. -/
def permInvLoop {n : ℕ} [NeZero n] (perm : Fin n → Fin n) : Fin n → Fin n :=
  (List.finRange n).foldl (fun acc i => Function.update acc (perm i) i) (fun _ => 0)

/-- `PermuteRandom.__init__`, with the drawn random permutation `σ` as a
parameter. -/
def PermuteRandom.init {n : ℕ} [NeZero n] (σ : Equiv.Perm (Fin n)) :
    PermuteRandomSt n :=
  { perm := σ, perm_inv := permInvLoop σ }

namespace PermuteRandom

/-- `PermuteRandom.forward` on a batch `x : Fin b → Fin n → ℚ`:
`x[0][:, self.perm]` if `rev=False`, `x[0][:, self.perm_inv]` if
`rev=True`; no field is written. -/
def forward {b n : ℕ} (st : PermuteRandomSt n) (x : Fin b → Fin n → ℚ)
    (rev : Bool) : PermuteRandomSt n × (Fin b → Fin n → ℚ) :=
  if !rev then (st, fun r j => x r (st.perm j))
  else (st, fun r j => x r (st.perm_inv j))

/-- `PermuteRandom.jacobian`: returns the Python float `0.` in both
directions, ignoring the input. -/
def jacobian {b n : ℕ} (st : PermuteRandomSt n) (_x : Fin b → Fin n → ℚ)
    (_rev : Bool) : PermuteRandomSt n × ℝ :=
  (st, 0)

/-- `PermuteRandom.output_dims`: asserts `len(input_dims) == 1`
(raising `AssertionError("Can only use 1 input")` otherwise) and returns
`input_dims`. -/
def output_dims (input_dims : List (List ℕ)) : Except String (List (List ℕ)) :=
  if input_dims.length = 1 then Except.ok input_dims
  else Except.error "Can only use 1 input"

end PermuteRandom

/-! ### Correctness of the `perm_inv` construction loop -/

/-- A fold of `Function.update`s along indices `f k` leaves positions hit
by no `f k`, `k ∈ l`, unchanged. -/
lemma foldl_update_of_not_mem {α β : Type*} [DecidableEq β] (f : α → β)
    (l : List α) (g : β → α) (b : β) (hb : ∀ k ∈ l, f k ≠ b) :
    (l.foldl (fun acc k => Function.update acc (f k) k) g) b = g b := by
  induction l generalizing g with
  | nil => rfl
  | cons k t ih =>
      simp only [List.foldl_cons]
      rw [ih _ (fun k' hk' => hb k' (List.mem_cons_of_mem _ hk'))]
      exact Function.update_noteq (Ne.symm (hb k (List.mem_cons_self k t))) _ _

/-- For injective `f`, the fold of updates sends `f i` to `i` whenever
`i ∈ l`. -/
lemma foldl_update_eval {α β : Type*} [DecidableEq β] (f : α → β)
    (hinj : Function.Injective f) (l : List α) (g : β → α) (i : α)
    (hi : i ∈ l) :
    (l.foldl (fun acc k => Function.update acc (f k) k) g) (f i) = i := by
  induction l generalizing g with
  | nil => cases hi
  | cons k t ih =>
      simp only [List.foldl_cons]
      by_cases hit : i ∈ t
      · exact ih _ hit
      · have hik : i = k := by
          rcases List.mem_cons.mp hi with h | h
          · exact h
          · exact absurd h hit
        subst hik
        rw [foldl_update_of_not_mem f t _ (f i)
          (fun k' hk' hfk' => hit (by rwa [hinj hfk'] at hk'))]
        exact Function.update_same _ _ _

/-- The loop-built `perm_inv` is the inverse permutation: evaluating it at
`σ i` gives back `i`. -/
lemma permInvLoop_apply {n : ℕ} [NeZero n] (σ : Equiv.Perm (Fin n)) (i : Fin n) :
    permInvLoop σ (σ i) = i :=
  foldl_update_eval σ σ.injective (List.finRange n) _ i (List.mem_finRange i)

/-- `σ ∘ perm_inv = id`. -/
lemma apply_permInvLoop {n : ℕ} [NeZero n] (σ : Equiv.Perm (Fin n)) (j : Fin n) :
    σ (permInvLoop σ j) = j := by
  have h := permInvLoop_apply σ (σ.symm j)
  rw [Equiv.apply_symm_apply] at h
  rw [h, Equiv.apply_symm_apply]

/-! ## Matrix inverse

`torch.inverse` on an invertible matrix returns the true inverse; we use
the computable adjugate formula, which agrees with it. -/

/-- `torch.inverse`: the matrix inverse, via the adjugate formula
`A⁻¹ = det(A)⁻¹ • adj(A)` (equal to Mathlib's `A⁻¹` and to the true
inverse whenever `det A` is a unit). -/
def matInv {n : ℕ} (A : Matrix (Fin n) (Fin n) ℚ) : Matrix (Fin n) (Fin n) ℚ :=
  A.det⁻¹ • A.adjugate

lemma matInv_mul {n : ℕ} (A : Matrix (Fin n) (Fin n) ℚ) (h : IsUnit A.det) :
    matInv A * A = 1 := by
  have hd : A.det ≠ 0 := by
    simpa [isUnit_iff_ne_zero] using h
  rw [matInv, Matrix.smul_mul, Matrix.adjugate_mul, smul_smul,
    inv_mul_cancel₀ hd, one_smul]

lemma mul_matInv {n : ℕ} (A : Matrix (Fin n) (Fin n) ℚ) (h : IsUnit A.det) :
    A * matInv A = 1 := by
  have hd : A.det ≠ 0 := by
    simpa [isUnit_iff_ne_zero] using h
  rw [matInv, Matrix.mul_smul, Matrix.mul_adjugate, smul_smul,
    inv_mul_cancel₀ hd, one_smul]

lemma matInv_transpose {n : ℕ} (A : Matrix (Fin n) (Fin n) ℚ) :
    matInv Aᵀ = (matInv A)ᵀ := by
  rw [matInv, matInv, Matrix.det_transpose, ← Matrix.adjugate_transpose,
    Matrix.transpose_smul]

/-! ## FixedLinearTransform

Source: class `FixedLinearTransform` (`y = Mx + b`).  `__init__` stores
`self.M = M.t()`, `self.M_inv = M.t().inverse()`, `self.b = b` and
`self.logDetM = torch.log(torch.cholesky(M).diag()).sum()`.  The call
`torch.cholesky(M)` returns the lower-triangular factor `L` with
`L @ L.t() = M` (raising for matrices that are not symmetric positive
definite); it is passed here as the parameter `L`. -/

/-- The fields of a `FixedLinearTransform` object. -/
structure FixedLinearSt (n : ℕ) where
  M : Matrix (Fin n) (Fin n) ℚ
  M_inv : Matrix (Fin n) (Fin n) ℚ
  b : Fin n → ℚ
  logDetM : ℝ

/-- The value `torch.log(torch.cholesky(M).diag()).sum()` stored as
`self.logDetM`, as a function of the Cholesky factor `L`. -/
noncomputable def cholLogDet {n : ℕ} (L : Matrix (Fin n) (Fin n) ℝ) : ℝ :=
  ∑ i, Real.log (L i i)

/-- `FixedLinearTransform.__init__(dims_in, M, b)`, with the Cholesky
factor `L` of `M` (what `torch.cholesky(M)` returns) as a parameter. -/
noncomputable def FixedLinearTransform.init {n : ℕ}
    (M : Matrix (Fin n) (Fin n) ℚ) (b : Fin n → ℚ)
    (L : Matrix (Fin n) (Fin n) ℝ) : FixedLinearSt n :=
  { M := Mᵀ, M_inv := matInv Mᵀ, b := b, logDetM := cholLogDet L }

namespace FixedLinearTransform

/-- `FixedLinearTransform.forward` on a batch `x : Fin k → Fin n → ℚ`:
`x[0].mm(self.M) + self.b` if `rev=False`,
`(x[0] - self.b).mm(self.M_inv)` if `rev=True`; no field is written. -/
def forward {k n : ℕ} (st : FixedLinearSt n) (x : Fin k → Fin n → ℚ)
    (rev : Bool) : FixedLinearSt n × (Fin k → Fin n → ℚ) :=
  if !rev then (st, fun r j => (∑ l, x r l * st.M l j) + st.b j)
  else (st, fun r j => ∑ l, (x r l - st.b l) * st.M_inv l j)

/-- `FixedLinearTransform.jacobian`: `self.logDetM.expand(batch)` if
`rev=False`, its negation if `rev=True`. -/
noncomputable def jacobian {k n : ℕ} (st : FixedLinearSt n)
    (_x : Fin k → Fin n → ℚ) (rev : Bool) : FixedLinearSt n × (Fin k → ℝ) :=
  if rev then (st, fun _ => -st.logDetM) else (st, fun _ => st.logDetM)

/-- `FixedLinearTransform.output_dims`: returns `input_dims` unchanged. -/
def output_dims (input_dims : List (List ℕ)) : List (List ℕ) := input_dims

end FixedLinearTransform

/-! ## Fixed1x1Conv

Source: class `Fixed1x1Conv`.  `__init__` stores `self.M = M.t()` (viewed
as a 1×1 convolution kernel), `self.M_inv = M.t().inverse()` and
`self.logDetM = torch.log(torch.det(M).abs()).sum()` (the `.sum()` of a
scalar is itself). -/

/-- The fields of a `Fixed1x1Conv` object. -/
structure Conv1x1St (c : ℕ) where
  M : Matrix (Fin c) (Fin c) ℚ
  M_inv : Matrix (Fin c) (Fin c) ℚ
  logDetM : ℝ

/-- `F.conv2d` with a 1×1 kernel `W` (shape `(c_out, c_in, 1, 1)`,
here just the matrix `W`): mixes channels pointwise at every spatial
position. -/
def conv2d1x1 {bt c c0 h w : ℕ} (W : Matrix (Fin c) (Fin c0) ℚ)
    (x : Fin bt → Fin c0 → Fin h → Fin w → ℚ) :
    Fin bt → Fin c → Fin h → Fin w → ℚ :=
  fun r k i j => ∑ l, W k l * x r l i j

/-- `Fixed1x1Conv.__init__(dims_in, M)`. -/
noncomputable def Fixed1x1Conv.init {c : ℕ} (M : Matrix (Fin c) (Fin c) ℚ) :
    Conv1x1St c :=
  { M := Mᵀ, M_inv := matInv Mᵀ, logDetM := Real.log |(M.det : ℝ)| }

namespace Fixed1x1Conv

/-- `Fixed1x1Conv.forward`: `F.conv2d(x[0], self.M)` if `rev=False`,
`F.conv2d(x[0], self.M_inv)` if `rev=True`; no field is written. -/
def forward {bt c h w : ℕ} (st : Conv1x1St c)
    (x : Fin bt → Fin c → Fin h → Fin w → ℚ) (rev : Bool) :
    Conv1x1St c × (Fin bt → Fin c → Fin h → Fin w → ℚ) :=
  if !rev then (st, conv2d1x1 st.M x) else (st, conv2d1x1 st.M_inv x)

/-- `Fixed1x1Conv.jacobian`: `self.logDetM.expand(batch)` if `rev=False`,
its negation if `rev=True`. -/
noncomputable def jacobian {bt c h w : ℕ} (st : Conv1x1St c)
    (_x : Fin bt → Fin c → Fin h → Fin w → ℚ) (rev : Bool) :
    Conv1x1St c × (Fin bt → ℝ) :=
  if rev then (st, fun _ => -st.logDetM) else (st, fun _ => st.logDetM)

/-- `Fixed1x1Conv.output_dims`: returns `input_dims` unchanged. -/
def output_dims (input_dims : List (List ℕ)) : List (List ℕ) := input_dims

end Fixed1x1Conv

/-! ## The deprecated aliases

Source: `_deprecated_by(orig_class)` builds a subclass whose `__init__`
emits a `DeprecationWarning` and then delegates to the original
constructor; `forward`, `jacobian` and `output_dims` are inherited, i.e.
they are the very same functions.  A Python class is modelled as a record
of its constructor (returning the warnings it emits alongside the new
object's state) and its three methods. -/

/-- A layer class of this module: constructor plus the three methods of
the shared capability interface. -/
structure PyClass (A S X Y J D E : Type) where
  init : A → List String × S
  fwd : S → X → Bool → S × Y
  jac : S → X → Bool → S × J
  odims : D → E

/-- `_deprecated_by(orig_class)`: same methods, constructor additionally
emits a `DeprecationWarning` before delegating. -/
def deprecated_by {A S X Y J D E : Type} (orig : PyClass A S X Y J D E) :
    PyClass A S X Y J D E :=
  { init := fun a => ("DeprecationWarning" :: (orig.init a).1, (orig.init a).2),
    fwd := orig.fwd, jac := orig.jac, odims := orig.odims }

/-- The class `PermuteRandom` packaged as a `PyClass` (constructor emits
no warning). -/
def PermuteRandomClass (n b : ℕ) [NeZero n] :
    PyClass (Equiv.Perm (Fin n)) (PermuteRandomSt n)
      (Fin b → Fin n → ℚ) (Fin b → Fin n → ℚ) ℝ
      (List (List ℕ)) (Except String (List (List ℕ))) :=
  { init := fun σ => ([], PermuteRandom.init σ),
    fwd := PermuteRandom.forward, jac := PermuteRandom.jacobian,
    odims := PermuteRandom.output_dims }

/-- The class `FixedLinearTransform` packaged as a `PyClass`. -/
noncomputable def FixedLinearTransformClass (k n : ℕ) :
    PyClass (Matrix (Fin n) (Fin n) ℚ × (Fin n → ℚ) × Matrix (Fin n) (Fin n) ℝ)
      (FixedLinearSt n) (Fin k → Fin n → ℚ) (Fin k → Fin n → ℚ) (Fin k → ℝ)
      (List (List ℕ)) (List (List ℕ)) :=
  { init := fun a => ([], FixedLinearTransform.init a.1 a.2.1 a.2.2),
    fwd := FixedLinearTransform.forward, jac := FixedLinearTransform.jacobian,
    odims := FixedLinearTransform.output_dims }

/-- The class `Fixed1x1Conv` packaged as a `PyClass`. -/
noncomputable def Fixed1x1ConvClass (bt c h w : ℕ) :
    PyClass (Matrix (Fin c) (Fin c) ℚ) (Conv1x1St c)
      (Fin bt → Fin c → Fin h → Fin w → ℚ)
      (Fin bt → Fin c → Fin h → Fin w → ℚ) (Fin bt → ℝ)
      (List (List ℕ)) (List (List ℕ)) :=
  { init := fun M => ([], Fixed1x1Conv.init M),
    fwd := Fixed1x1Conv.forward, jac := Fixed1x1Conv.jacobian,
    odims := Fixed1x1Conv.output_dims }

/-- `permute_layer = _deprecated_by(PermuteRandom)`. -/
def permute_layer (n b : ℕ) [NeZero n] := deprecated_by (PermuteRandomClass n b)

/-- `linear_transform = _deprecated_by(FixedLinearTransform)`. -/
noncomputable def linear_transform (k n : ℕ) :=
  deprecated_by (FixedLinearTransformClass k n)

/-- `conv_1x1 = _deprecated_by(Fixed1x1Conv)`. -/
noncomputable def conv_1x1 (bt c h w : ℕ) :=
  deprecated_by (Fixed1x1ConvClass bt c h w)

/-! ## Helper lemmas about the sigmoid -/

lemma sigmoid_pos (t : ℝ) : 0 < sigmoid t := by
  have h : (0:ℝ) < 1 + Real.exp (-t) := by positivity
  exact div_pos one_pos h

lemma sigmoid_lt_one (t : ℝ) : sigmoid t < 1 := by
  have h : (0:ℝ) < 1 + Real.exp (-t) := by positivity
  rw [sigmoid, div_lt_one h]
  have := Real.exp_pos (-t)
  linarith

/-- `sigmoid` undoes `log z - log (1-z)` on `(0,1)`. -/
lemma sigmoid_log_sub {z : ℝ} (h0 : 0 < z) (h1 : z < 1) :
    sigmoid (Real.log z - Real.log (1 - z)) = z := by
  have h1z : (0:ℝ) < 1 - z := by linarith
  rw [sigmoid, neg_sub, Real.exp_sub, Real.exp_log h1z, Real.exp_log h0]
  have hz : z ≠ 0 := ne_of_gt h0
  field_simp

end FrEIA

namespace FrEIA

/-- C6: for every state, every real input vector and every coordinate, the
reverse direction of `LogitTransform.forward` (the sigmoid branch) returns
a value strictly inside the open interval `(0,1)`. -/
theorem claim6_sigmoid_range (n : ℕ) (st : LogitSt) (x : Fin n → ℝ) (i : Fin n) :
    0 < (LogitTransform.forward st x true).2 i ∧
      (LogitTransform.forward st x true).2 i < 1 := by
  have h : (LogitTransform.forward st x true).2 i = sigmoid (x i) := rfl
  rw [h]
  exact ⟨sigmoid_pos (x i), sigmoid_lt_one (x i)⟩

/-- C8: for every `dims_in` and every `scaling`, `LogitTransform.__init__`
evaluates the undefined name `mine` and therefore raises `NameError`, so no
`LogitTransform` instance is ever produced by the constructor. -/
theorem claim8_logit_init_name_error (dims_in : List (List ℕ)) (scaling : ℝ) :
    LogitTransform.init dims_in scaling =
      Except.error (PyError.nameError "name mine is not defined") := rfl

/-- C9: `output_dims` returns `input_dims` unchanged for
`FixedLinearTransform`, `LogitTransform` and `Fixed1x1Conv`;
`PermuteRandom.output_dims` additionally asserts that `input_dims` has
exactly one entry, raising `AssertionError` otherwise and returning
`input_dims` unchanged when the assertion passes. -/
theorem claim9_output_dims (d : List (List ℕ)) :
    FixedLinearTransform.output_dims d = d ∧
    LogitTransform.output_dims d = d ∧
    Fixed1x1Conv.output_dims d = d ∧
    (d.length = 1 → PermuteRandom.output_dims d = Except.ok d) ∧
    (d.length ≠ 1 →
      PermuteRandom.output_dims d = Except.error "Can only use 1 input") := by
  refine ⟨rfl, rfl, rfl, ?_, ?_⟩ <;> intro h <;>
    simp [PermuteRandom.output_dims, h]

/-- Witness for C9 at `input_dims = [[3]]` (assertion passes) and
`input_dims = []` (assertion fails). -/
theorem claim9_witness :
    (([[3]] : List (List ℕ)).length = 1 ∧
      PermuteRandom.output_dims [[3]] = Except.ok [[3]]) ∧
    (([] : List (List ℕ)).length ≠ 1 ∧
      PermuteRandom.output_dims ([] : List (List ℕ)) =
        Except.error "Can only use 1 input") :=
  ⟨⟨rfl, (claim9_output_dims [[3]]).2.2.2.1 rfl⟩,
   ⟨by decide, (claim9_output_dims []).2.2.2.2 (by decide)⟩⟩

/-! ## C7: the permutation layer and its Jacobian -/

/-- Applying the permutation matrix of `σ` to a vector permutes its
coordinates by `σ`: this identifies `σ.permMatrix` as the Jacobian of the
map performed by `PermuteRandom.forward`. -/
lemma permMatrix_mulVec {n : ℕ} (σ : Equiv.Perm (Fin n)) (v : Fin n → ℚ) :
    (σ.permMatrix ℚ).mulVec v = fun i => v (σ i) := by
  funext i
  simp [Matrix.mulVec, Matrix.dotProduct, PEquiv.toMatrix_apply,
    Equiv.toPEquiv_apply, Option.mem_def]

/-- C7: `PermuteRandom.jacobian` returns `0.` in both directions; the
forward map is multiplication by the permutation matrix of the stored
permutation, and the log-determinant of a permutation matrix really is
`0` (its determinant is the sign `±1`). -/
theorem claim7_permutation_zero_logdet :
    (∀ (b n : ℕ) (st : PermuteRandomSt n) (x : Fin b → Fin n → ℚ) (rev : Bool),
      (PermuteRandom.jacobian st x rev).2 = 0) ∧
    (∀ (b n : ℕ) [NeZero n] (σ : Equiv.Perm (Fin n)) (x : Fin b → Fin n → ℚ)
      (r : Fin b),
      (PermuteRandom.forward (PermuteRandom.init σ) x false).2 r =
        (σ.permMatrix ℚ).mulVec (x r)) ∧
    (∀ (n : ℕ) (σ : Equiv.Perm (Fin n)),
      Real.log |(σ.permMatrix ℝ).det| = 0) := by
  refine ⟨fun _ _ _ _ _ => rfl, ?_, ?_⟩
  · intro b n _ σ x r
    rw [permMatrix_mulVec]
    rfl
  · intro n σ
    rw [Matrix.det_permutation]
    rcases Int.units_eq_one_or (Equiv.Perm.sign σ) with h | h <;> rw [h] <;>
      simp

/-- Witness for C7 with the transposition `swap 0 1` on two channels. -/
theorem claim7_witness :
    (PermuteRandom.jacobian (PermuteRandom.init (Equiv.swap (0 : Fin 2) 1))
      (fun _ : Fin 1 => fun _ => 0) false).2 = 0 ∧
    Real.log |((Equiv.swap (0 : Fin 2) 1).permMatrix ℝ).det| = 0 :=
  ⟨claim7_permutation_zero_logdet.1 1 2 _ _ false,
   claim7_permutation_zero_logdet.2.2 2 (Equiv.swap 0 1)⟩

/-! ## C4: the affine layer computes `y = Mx + b` and its inverse -/

/-- C4: on every batch row, `FixedLinearTransform.forward` with
`rev=False` computes `M x_r + b`, and with `rev=True` computes
`M⁻¹ (y_r - b)`; the last two conjuncts certify that `matInv M` is the
genuine two-sided inverse of `M`. -/
theorem claim4_linear_forward_affine (k n : ℕ) (M : Matrix (Fin n) (Fin n) ℚ)
    (bv : Fin n → ℚ) (L : Matrix (Fin n) (Fin n) ℝ) (x y : Fin k → Fin n → ℚ)
    (hM : IsUnit M.det) :
    (∀ r, (FixedLinearTransform.forward (FixedLinearTransform.init M bv L)
        x false).2 r = M.mulVec (x r) + bv) ∧
    (∀ r, (FixedLinearTransform.forward (FixedLinearTransform.init M bv L)
        y true).2 r = (matInv M).mulVec (fun l => y r l - bv l)) ∧
    matInv M * M = 1 ∧ M * matInv M = 1 := by
  refine ⟨?_, ?_, matInv_mul M hM, mul_matInv M hM⟩
  · intro r
    funext j
    show (∑ l, x r l * Mᵀ l j) + bv j = M.mulVec (x r) j + bv j
    simp [Matrix.mulVec, Matrix.dotProduct, Matrix.transpose_apply, mul_comm]
  · intro r
    funext j
    show ∑ l, (y r l - bv l) * matInv Mᵀ l j =
      (matInv M).mulVec (fun l => y r l - bv l) j
    rw [matInv_transpose]
    simp [Matrix.mulVec, Matrix.dotProduct, Matrix.transpose_apply, mul_comm]

/-- Witness for C4 at `M = [[2]]`, `b = [3]`, `x = y = [[5]]`. -/
theorem claim4_witness :
    IsUnit ((!![(2 : ℚ)]).det) ∧
    (FixedLinearTransform.forward
      (FixedLinearTransform.init !![(2 : ℚ)] (fun _ => 3) !![(1 : ℝ)])
      (fun _ : Fin 1 => fun _ => 5) false).2 0 =
      (!![(2 : ℚ)]).mulVec (fun _ => 5) + (fun _ => 3) ∧
    matInv !![(2 : ℚ)] * !![(2 : ℚ)] = 1 := by
  have hdet : IsUnit ((!![(2 : ℚ)]).det) := by
    rw [Matrix.det_fin_one_of]
    exact isUnit_iff_ne_zero.mpr (by norm_num)
  exact ⟨hdet,
    (claim4_linear_forward_affine 1 1 !![(2 : ℚ)] (fun _ => 3) !![(1 : ℝ)]
      (fun _ => fun _ => 5) (fun _ => fun _ => 5) hdet).1 0,
    (claim4_linear_forward_affine 1 1 !![(2 : ℚ)] (fun _ => 3) !![(1 : ℝ)]
      (fun _ => fun _ => 5) (fun _ => fun _ => 5) hdet).2.2.1⟩

/-! ## C1: forward-then-reverse round trips -/

/-- `FixedLinearTransform`: reverse undoes forward. -/
lemma linear_fwd_rev_id {k n : ℕ} (M : Matrix (Fin n) (Fin n) ℚ)
    (bv : Fin n → ℚ) (L : Matrix (Fin n) (Fin n) ℝ) (x : Fin k → Fin n → ℚ)
    (hM : IsUnit M.det) :
    (FixedLinearTransform.forward (FixedLinearTransform.init M bv L)
      ((FixedLinearTransform.forward (FixedLinearTransform.init M bv L)
        x false).2) true).2 = x := by
  have hMt : Mᵀ * matInv Mᵀ = 1 :=
    mul_matInv Mᵀ (by rwa [Matrix.det_transpose])
  funext r j
  show ∑ l, (((∑ m, x r m * Mᵀ m l) + bv l) - bv l) * matInv Mᵀ l j = x r j
  simp only [add_sub_cancel_right, Finset.sum_mul]
  rw [Finset.sum_comm]
  have hlm : ∀ m, ∑ l, x r m * Mᵀ m l * matInv Mᵀ l j =
      x r m * (Mᵀ * matInv Mᵀ) m j := by
    intro m
    rw [Matrix.mul_apply, Finset.mul_sum]
    exact Finset.sum_congr rfl (fun l _ => by ring)
  simp only [hlm, hMt, Matrix.one_apply]
  simp

/-- Composing two 1×1 convolutions multiplies their kernels. -/
lemma conv2d1x1_comp {bt c h w : ℕ} (W V : Matrix (Fin c) (Fin c) ℚ)
    (x : Fin bt → Fin c → Fin h → Fin w → ℚ) :
    conv2d1x1 W (conv2d1x1 V x) = conv2d1x1 (W * V) x := by
  funext r k i j
  show ∑ l, W k l * ∑ m, V l m * x r m i j =
    ∑ m, (W * V) k m * x r m i j
  simp only [Finset.mul_sum, Finset.sum_mul, Matrix.mul_apply]
  rw [Finset.sum_comm]
  exact Finset.sum_congr rfl fun m _ =>
    Finset.sum_congr rfl fun l _ => by ring

/-- The identity kernel is the identity 1×1 convolution. -/
lemma conv2d1x1_one {bt c h w : ℕ} (x : Fin bt → Fin c → Fin h → Fin w → ℚ) :
    conv2d1x1 (1 : Matrix (Fin c) (Fin c) ℚ) x = x := by
  funext r k i j
  show ∑ l, (1 : Matrix (Fin c) (Fin c) ℚ) k l * x r l i j = x r k i j
  simp [Matrix.one_apply]

/-- `Fixed1x1Conv`: reverse undoes forward. -/
lemma conv_fwd_rev_id {bt c h w : ℕ} (M : Matrix (Fin c) (Fin c) ℚ)
    (x : Fin bt → Fin c → Fin h → Fin w → ℚ) (hM : IsUnit M.det) :
    (Fixed1x1Conv.forward (Fixed1x1Conv.init M)
      ((Fixed1x1Conv.forward (Fixed1x1Conv.init M) x false).2) true).2 = x := by
  have hMt : matInv Mᵀ * Mᵀ = 1 :=
    matInv_mul Mᵀ (by rwa [Matrix.det_transpose])
  show conv2d1x1 (matInv Mᵀ) (conv2d1x1 Mᵀ x) = x
  rw [conv2d1x1_comp, hMt, conv2d1x1_one]

/-- `LogitTransform`: forward-then-reverse lands on the *scaled* value
`z = ((2x-1)·scaling+1)/2`, not on `x`, whenever `z` is inside the
clamping range of `safe_log`. -/
lemma logit_fwd_rev {n : ℕ} (st₁ st₂ : LogitSt) (x : Fin n → ℝ)
    (h : ∀ i, 1e-22 ≤ ((2 * x i - 1) * st₁.scaling + 1) / 2 ∧
      ((2 * x i - 1) * st₁.scaling + 1) / 2 ≤ 1 - 1e-22) :
    (LogitTransform.forward st₂ ((LogitTransform.forward st₁ x false).2)
      true).2 = fun i => ((2 * x i - 1) * st₁.scaling + 1) / 2 := by
  funext i
  show sigmoid (safe_log (((2 * x i - 1) * st₁.scaling + 1) / 2) -
    safe_log (1 - ((2 * x i - 1) * st₁.scaling + 1) / 2)) = _
  set z : ℝ := ((2 * x i - 1) * st₁.scaling + 1) / 2 with hz
  have h1 := (h i).1
  have h2 := (h i).2
  have hz0 : (0 : ℝ) < z := lt_of_lt_of_le (by norm_num) h1
  have hz1 : z < 1 := lt_of_le_of_lt h2 (by norm_num)
  have e1 : safe_log z = Real.log z := by
    rw [safe_log, max_eq_left h1]
  have e2 : safe_log (1 - z) = Real.log (1 - z) := by
    rw [safe_log, max_eq_left (by linarith)]
  rw [e1, e2, sigmoid_log_sub hz0 hz1]

/-- C1 (amended): forward-then-reverse returns the original input for
`PermuteRandom`, `FixedLinearTransform` (invertible `M`) and
`Fixed1x1Conv` (invertible `M`); for `LogitTransform` it instead returns
the scaled value `((2x-1)·scaling+1)/2`, which differs from `x` whenever
`scaling ≠ 1` (see the counterexample). -/
theorem claim1_forward_reverse_roundtrip :
    (∀ (b n : ℕ) [NeZero n] (σ : Equiv.Perm (Fin n))
      (x : Fin b → Fin n → ℚ),
      (PermuteRandom.forward (PermuteRandom.init σ)
        ((PermuteRandom.forward (PermuteRandom.init σ) x false).2)
        true).2 = x) ∧
    (∀ (k n : ℕ) (M : Matrix (Fin n) (Fin n) ℚ) (bv : Fin n → ℚ)
      (L : Matrix (Fin n) (Fin n) ℝ) (x : Fin k → Fin n → ℚ),
      IsUnit M.det →
      (FixedLinearTransform.forward (FixedLinearTransform.init M bv L)
        ((FixedLinearTransform.forward (FixedLinearTransform.init M bv L)
          x false).2) true).2 = x) ∧
    (∀ (bt c h w : ℕ) (M : Matrix (Fin c) (Fin c) ℚ)
      (x : Fin bt → Fin c → Fin h → Fin w → ℚ),
      IsUnit M.det →
      (Fixed1x1Conv.forward (Fixed1x1Conv.init M)
        ((Fixed1x1Conv.forward (Fixed1x1Conv.init M) x false).2)
        true).2 = x) ∧
    (∀ (n : ℕ) (st₁ st₂ : LogitSt) (x : Fin n → ℝ),
      (∀ i, 1e-22 ≤ ((2 * x i - 1) * st₁.scaling + 1) / 2 ∧
        ((2 * x i - 1) * st₁.scaling + 1) / 2 ≤ 1 - 1e-22) →
      (LogitTransform.forward st₂
        ((LogitTransform.forward st₁ x false).2) true).2 =
        fun i => ((2 * x i - 1) * st₁.scaling + 1) / 2) := by
  refine ⟨?_, ?_, ?_, ?_⟩
  · intro b n _ σ x
    funext r j
    show x r (σ (permInvLoop σ j)) = x r j
    rw [apply_permInvLoop]
  · intro k n M bv L x hM
    exact linear_fwd_rev_id M bv L x hM
  · intro bt c h w M x hM
    exact conv_fwd_rev_id M x hM
  · intro n st₁ st₂ x h
    exact logit_fwd_rev st₁ st₂ x h

/-- C1 as stated is false for `LogitTransform`: with the default
`scaling = 0.99` and input `x = [0.]`, forward-then-reverse returns
`[0.005]`, not `[0.]`. -/
theorem claim1_logit_roundtrip_counterexample :
    (LogitTransform.forward (⟨99 / 100, 0⟩ : LogitSt)
      ((LogitTransform.forward (⟨99 / 100, 0⟩ : LogitSt)
        (fun _ : Fin 1 => 0) false).2) true).2 =
      (fun _ : Fin 1 => (1 / 200 : ℝ)) ∧
    (fun _ : Fin 1 => (1 / 200 : ℝ)) ≠ (fun _ : Fin 1 => (0 : ℝ)) := by
  constructor
  · funext i
    show sigmoid (safe_log (((2 * (0:ℝ) - 1) * (99 / 100) + 1) / 2) -
      safe_log (1 - ((2 * (0:ℝ) - 1) * (99 / 100) + 1) / 2)) = 1 / 200
    have h1 : ((2 * (0:ℝ) - 1) * (99 / 100) + 1) / 2 = 1 / 200 := by norm_num
    rw [h1]
    have h2 : (1 : ℝ) - 1 / 200 = 199 / 200 := by norm_num
    rw [h2]
    have e1 : safe_log (1 / 200 : ℝ) = Real.log (1 / 200) := by
      rw [safe_log, max_eq_left (by norm_num)]
    have e2 : safe_log (199 / 200 : ℝ) = Real.log (199 / 200) := by
      rw [safe_log, max_eq_left (by norm_num)]
    rw [e1, e2]
    have h3 : (199 / 200 : ℝ) = 1 - 1 / 200 := by norm_num
    rw [h3, sigmoid_log_sub (by norm_num) (by norm_num)]
  · intro hEq
    have h0 : (1 / 200 : ℝ) = 0 := congrFun hEq 0
    norm_num at h0

/-- Witness for C1 with concrete data for all four layers. -/
theorem claim1_witness :
    ((PermuteRandom.forward (PermuteRandom.init (Equiv.swap (0 : Fin 2) 1))
      ((PermuteRandom.forward (PermuteRandom.init (Equiv.swap (0 : Fin 2) 1))
        (fun _ : Fin 1 => fun _ => 1) false).2) true).2 =
      fun _ : Fin 1 => fun _ => 1) ∧
    (IsUnit ((!![(2 : ℚ)]).det) ∧
      (FixedLinearTransform.forward
        (FixedLinearTransform.init !![(2 : ℚ)] (fun _ => 3) !![(1 : ℝ)])
        ((FixedLinearTransform.forward
          (FixedLinearTransform.init !![(2 : ℚ)] (fun _ => 3) !![(1 : ℝ)])
          (fun _ : Fin 1 => fun _ => 5) false).2) true).2 =
        fun _ : Fin 1 => fun _ => 5) ∧
    ((Fixed1x1Conv.forward (Fixed1x1Conv.init !![(2 : ℚ)])
      ((Fixed1x1Conv.forward (Fixed1x1Conv.init !![(2 : ℚ)])
        (fun _ : Fin 1 => fun _ : Fin 1 => fun _ : Fin 1 => fun _ : Fin 1 => 7)
        false).2) true).2 =
      fun _ : Fin 1 => fun _ : Fin 1 => fun _ : Fin 1 => fun _ : Fin 1 => 7) ∧
    ((1e-22 : ℝ) ≤ ((2 * (1 / 2 : ℝ) - 1) * (1 / 2) + 1) / 2 ∧
      ((2 * (1 / 2 : ℝ) - 1) * (1 / 2) + 1) / 2 ≤ 1 - 1e-22 ∧
      (LogitTransform.forward (⟨1 / 2, 0⟩ : LogitSt)
        ((LogitTransform.forward (⟨1 / 2, 0⟩ : LogitSt)
          (fun _ : Fin 1 => 1 / 2) false).2) true).2 =
        fun i : Fin 1 =>
          ((2 * (fun _ : Fin 1 => (1 / 2 : ℝ)) i - 1) *
            (⟨1 / 2, 0⟩ : LogitSt).scaling + 1) / 2) := by
  have hdet : IsUnit ((!![(2 : ℚ)]).det) := by
    rw [Matrix.det_fin_one_of]
    exact isUnit_iff_ne_zero.mpr (by norm_num)
  refine ⟨claim1_forward_reverse_roundtrip.1 1 2 (Equiv.swap 0 1) _,
    ⟨hdet, claim1_forward_reverse_roundtrip.2.1 1 1 _ _ _ _ hdet⟩,
    claim1_forward_reverse_roundtrip.2.2.1 1 1 1 1 _ _ hdet,
    by norm_num, by norm_num, ?_⟩
  exact claim1_forward_reverse_roundtrip.2.2.2 1 ⟨1 / 2, 0⟩ ⟨1 / 2, 0⟩
    (fun _ => 1 / 2) (fun i => ⟨by norm_num, by norm_num⟩)

/-! ## C5: statelessness after construction -/

/-- C5 (amended): `PermuteRandom`, `FixedLinearTransform` and
`Fixed1x1Conv` are stateless — `forward` and `jacobian` leave every field
unchanged — and so is `LogitTransform.jacobian`; but
`LogitTransform.forward` overwrites the field `last_jac` (see the
counterexample) while leaving `scaling` unchanged, and its results are
still determined by `scaling` and the input alone, so repeated calls with
the same input return the same result. -/
theorem claim5_statelessness_amended :
    (∀ (b n : ℕ) (st : PermuteRandomSt n) (x : Fin b → Fin n → ℚ)
      (rev : Bool),
      (PermuteRandom.forward st x rev).1 = st ∧
      (PermuteRandom.jacobian st x rev).1 = st) ∧
    (∀ (k n : ℕ) (st : FixedLinearSt n) (x : Fin k → Fin n → ℚ)
      (rev : Bool),
      (FixedLinearTransform.forward st x rev).1 = st ∧
      (FixedLinearTransform.jacobian st x rev).1 = st) ∧
    (∀ (bt c h w : ℕ) (st : Conv1x1St c)
      (x : Fin bt → Fin c → Fin h → Fin w → ℚ) (rev : Bool),
      (Fixed1x1Conv.forward st x rev).1 = st ∧
      (Fixed1x1Conv.jacobian st x rev).1 = st) ∧
    (∀ (n : ℕ) (st : LogitSt) (x : Fin n → ℝ) (rev : Bool),
      (LogitTransform.forward st x rev).1.scaling = st.scaling ∧
      (LogitTransform.jacobian st x rev).1 = st) ∧
    (∀ (n : ℕ) (st₁ st₂ : LogitSt) (x : Fin n → ℝ) (rev : Bool),
      st₁.scaling = st₂.scaling →
      (LogitTransform.forward st₁ x rev).2 =
        (LogitTransform.forward st₂ x rev).2 ∧
      (LogitTransform.forward st₁ x rev).1.last_jac =
        (LogitTransform.forward st₂ x rev).1.last_jac) := by
  refine ⟨?_, ?_, ?_, ?_, ?_⟩
  · intro b n st x rev
    cases rev <;> exact ⟨rfl, rfl⟩
  · intro k n st x rev
    cases rev <;> exact ⟨rfl, rfl⟩
  · intro bt c h w st x rev
    cases rev <;> exact ⟨rfl, rfl⟩
  · intro n st x rev
    cases rev <;> exact ⟨rfl, rfl⟩
  · intro n st₁ st₂ x rev h
    cases rev <;> constructor <;> simp [LogitTransform.forward, h]

/-- C5 as stated is false for `LogitTransform`: calling `forward` on a
fresh state (with `last_jac = 0`, `scaling = 0.99`) at input `[0.]`
changes the field `last_jac`. -/
theorem claim5_logit_mutates_last_jac :
    (LogitTransform.forward (⟨99 / 100, 0⟩ : LogitSt) (fun _ : Fin 1 => 0)
      false).1 ≠ (⟨99 / 100, 0⟩ : LogitSt) := by
  intro hEq
  have hj : (LogitTransform.forward (⟨99 / 100, 0⟩ : LogitSt)
      (fun _ : Fin 1 => 0) false).1.last_jac = 0 :=
    congrArg LogitSt.last_jac hEq
  have hval : (LogitTransform.forward (⟨99 / 100, 0⟩ : LogitSt)
      (fun _ : Fin 1 => 0) false).1.last_jac =
      -Real.log (1 / 200) - Real.log (199 / 200) := by
    show (∑ i : Fin 1,
      (-safe_log (((2 * (0:ℝ) - 1) * (99 / 100) + 1) / 2) -
        safe_log (1 - ((2 * (0:ℝ) - 1) * (99 / 100) + 1) / 2))) = _
    rw [Fin.sum_univ_one]
    have h1 : ((2 * (0:ℝ) - 1) * (99 / 100) + 1) / 2 = 1 / 200 := by norm_num
    rw [h1]
    have h2 : (1:ℝ) - 1 / 200 = 199 / 200 := by norm_num
    rw [h2, safe_log, safe_log, max_eq_left (by norm_num),
      max_eq_left (by norm_num)]
  rw [hval] at hj
  have hpos : (0:ℝ) < -Real.log (1 / 200) - Real.log (199 / 200) := by
    have ha : Real.log (1 / 200 : ℝ) < 0 :=
      Real.log_neg (by norm_num) (by norm_num)
    have hb : Real.log (199 / 200 : ℝ) < 0 :=
      Real.log_neg (by norm_num) (by norm_num)
    linarith
  rw [hj] at hpos
  exact lt_irrefl 0 hpos

/-- Witness for C5: two `LogitTransform` states sharing `scaling = 1/2`
but with different cached `last_jac` produce the same forward output and
the same new cache. -/
theorem claim5_witness :
    (⟨1 / 2, 0⟩ : LogitSt).scaling = (⟨1 / 2, 5⟩ : LogitSt).scaling ∧
    ((LogitTransform.forward (⟨1 / 2, 0⟩ : LogitSt) (fun _ : Fin 1 => 0)
        false).2 =
      (LogitTransform.forward (⟨1 / 2, 5⟩ : LogitSt) (fun _ : Fin 1 => 0)
        false).2 ∧
    (LogitTransform.forward (⟨1 / 2, 0⟩ : LogitSt) (fun _ : Fin 1 => 0)
        false).1.last_jac =
      (LogitTransform.forward (⟨1 / 2, 5⟩ : LogitSt) (fun _ : Fin 1 => 0)
        false).1.last_jac) :=
  ⟨rfl, claim5_statelessness_amended.2.2.2.2 1 ⟨1 / 2, 0⟩ ⟨1 / 2, 5⟩
    (fun _ => 0) false rfl⟩

/-! ## C2: the stored `logDetM` of `FixedLinearTransform` is wrong

`torch.cholesky(M)` returns the lower-triangular `L` with positive
diagonal and `L Lᵀ = M`, so the stored
`logDetM = Σ log L_ii = ½·log det M`, half of the claimed `log|det M|`. -/

/-- What the constructor stores: for any Cholesky factorisation
`L Lᵀ = M` (lower triangular, positive diagonal), the stored value
`Σ log L_ii` equals `½·log det M`, not `log|det M|`. -/
lemma cholLogDet_eq_half_logdet {n : ℕ} (L M : Matrix (Fin n) (Fin n) ℝ)
    (hL : ∀ i j, i < j → L i j = 0) (hpos : ∀ i, 0 < L i i)
    (hfac : L * Lᵀ = M) :
    cholLogDet L = (1 / 2) * Real.log M.det := by
  have hdetL : L.det = ∏ i, L i i :=
    Matrix.det_of_lowerTriangular L (fun i j hij => hL i j (by simpa using hij))
  have hdetM : M.det = (∏ i, L i i) ^ 2 := by
    rw [← hfac, Matrix.det_mul, Matrix.det_transpose, hdetL]
    ring
  rw [cholLogDet, hdetM, Real.log_pow,
    ← Real.log_prod _ _ (fun i _ => ne_of_gt (hpos i))]
  push_cast
  ring

/-- C2 fails on the code: at `M = [[4.]]` (accepted by the constructor,
Cholesky factor `L = [[2.]]`), `jacobian(x, rev=False)` returns
`log 2 ≈ 0.693` on every batch row, while the log-determinant of the
Jacobian of `y = Mx + b` is `log|det M| = log 4 ≈ 1.386`. -/
theorem claim2_cholesky_half_logdet_bug :
    !![(2 : ℝ)] * (!![(2 : ℝ)])ᵀ = !![(4 : ℝ)] ∧
    (FixedLinearTransform.jacobian
      (FixedLinearTransform.init !![(4 : ℚ)] (fun _ => 0) !![(2 : ℝ)])
      (fun _ : Fin 1 => fun _ => 1) false).2 =
      (fun _ : Fin 1 => Real.log 2) ∧
    Real.log |(((!![(4 : ℚ)]).det : ℚ) : ℝ)| = Real.log 4 ∧
    Real.log 2 ≠ Real.log 4 := by
  refine ⟨?_, ?_, ?_, ?_⟩
  · ext i j
    fin_cases i
    fin_cases j
    simp [Matrix.mul_apply]
    norm_num
  · funext r
    show cholLogDet !![(2 : ℝ)] = Real.log 2
    rw [cholLogDet, Fin.sum_univ_one]
    norm_num
  · rw [Matrix.det_fin_one_of]
    norm_num
  · exact ne_of_lt (Real.log_lt_log (by norm_num) (by norm_num))

/-! ## C3: the 1×1-conv Jacobian misses the spatial factor

The full pointwise map applied by `Fixed1x1Conv.forward` mixes channels
with the stored kernel at each of the `h·w` spatial positions; its
Jacobian matrix is the Kronecker product of the kernel with the identity
on positions, with determinant `det(kernel)^(h·w)`.  The code stores and
returns only `log|det M|`, without the `h·w` factor. -/

/-- The Jacobian matrix of the full map `x ↦ conv2d1x1 W x` on one
sample: `W` acting on channels, identically at every spatial position
(the Kronecker product `W ⊗ I_(h·w)`).  This is the mathematical
reference the claim compares against, not code of the module. -/
def conv1x1FullMatrix (c h w : ℕ) (W : Matrix (Fin c) (Fin c) ℝ) :
    Matrix (Fin c × (Fin h × Fin w)) (Fin c × (Fin h × Fin w)) ℝ :=
  Matrix.kroneckerMap (· * ·) W 1

/-- `conv1x1FullMatrix` really is the linear map computed pointwise by a
1×1 convolution with kernel `W`. -/
lemma conv1x1FullMatrix_mulVec {c h w : ℕ} (W : Matrix (Fin c) (Fin c) ℝ)
    (v : Fin c × (Fin h × Fin w) → ℝ) (k : Fin c) (p : Fin h × Fin w) :
    (conv1x1FullMatrix c h w W).mulVec v (k, p) = ∑ l, W k l * v (l, p) := by
  simp [conv1x1FullMatrix, Matrix.mulVec, Matrix.dotProduct,
    Fintype.sum_prod_type, Matrix.one_apply, ite_mul, mul_ite, mul_zero,
    zero_mul, mul_one, Finset.sum_ite_eq]

/-- Determinant of the full pointwise Jacobian: `det(W)^(h·w)`. -/
lemma conv1x1FullMatrix_det (c h w : ℕ) (W : Matrix (Fin c) (Fin c) ℝ) :
    (conv1x1FullMatrix c h w W).det = W.det ^ (h * w) := by
  rw [conv1x1FullMatrix, Matrix.det_kronecker]
  simp [Fintype.card_prod]

/-- C3 fails on the code: with channel kernel `M = [[2.]]` on a `2×2`
spatial grid, `jacobian(x, rev=False)` returns `log 2` on every batch
row, while the log-determinant of the Jacobian of the full pointwise map
(the stored kernel `Mᵀ` applied at each of the `2·2 = 4` positions) is
`4·log 2`. -/
theorem claim3_conv_jacobian_missing_spatial_factor :
    ((Fixed1x1Conv.jacobian (Fixed1x1Conv.init !![(2 : ℚ)])
      (fun _ : Fin 1 => fun _ : Fin 1 => fun _ : Fin 2 => fun _ : Fin 2 =>
        (0 : ℚ)) false).2 = fun _ : Fin 1 => Real.log 2) ∧
    (∀ (v : Fin 1 × (Fin 2 × Fin 2) → ℝ) (k : Fin 1) (p : Fin 2 × Fin 2),
      (conv1x1FullMatrix 1 2 2 ((!![(2 : ℝ)])ᵀ)).mulVec v (k, p) =
        ∑ l, (!![(2 : ℝ)])ᵀ k l * v (l, p)) ∧
    Real.log |(conv1x1FullMatrix 1 2 2 ((!![(2 : ℝ)])ᵀ)).det| =
      4 * Real.log 2 ∧
    (4 : ℝ) * Real.log 2 ≠ Real.log 2 := by
  refine ⟨?_, fun v k p => conv1x1FullMatrix_mulVec _ v k p, ?_, ?_⟩
  · funext r
    show Real.log |(((!![(2 : ℚ)]).det : ℚ) : ℝ)| = Real.log 2
    rw [Matrix.det_fin_one_of]
    norm_num
  · rw [conv1x1FullMatrix_det, Matrix.det_transpose, Matrix.det_fin_one_of,
      abs_of_pos (by positivity), Real.log_pow]
    norm_num
  · intro h
    have hl2 : (0 : ℝ) < Real.log 2 := Real.log_pos (by norm_num)
    linarith

/-! ## C10: the deprecated aliases -/

/-- C10: `permute_layer`, `linear_transform` and `conv_1x1` have exactly
the `forward`, `jacobian` and `output_dims` of the classes they
deprecate, and their constructors build the same object state, emitting
one extra `DeprecationWarning`. -/
theorem claim10_deprecated_aliases (n b k m bt c h w : ℕ) [NeZero n]
    (σ : Equiv.Perm (Fin n))
    (args : Matrix (Fin m) (Fin m) ℚ × (Fin m → ℚ) × Matrix (Fin m) (Fin m) ℝ)
    (M : Matrix (Fin c) (Fin c) ℚ) :
    (((permute_layer n b).init σ).1 =
        "DeprecationWarning" :: ((PermuteRandomClass n b).init σ).1 ∧
      ((permute_layer n b).init σ).2 = ((PermuteRandomClass n b).init σ).2 ∧
      (permute_layer n b).fwd = (PermuteRandomClass n b).fwd ∧
      (permute_layer n b).jac = (PermuteRandomClass n b).jac ∧
      (permute_layer n b).odims = (PermuteRandomClass n b).odims) ∧
    (((linear_transform k m).init args).1 =
        "DeprecationWarning" :: ((FixedLinearTransformClass k m).init args).1 ∧
      ((linear_transform k m).init args).2 =
        ((FixedLinearTransformClass k m).init args).2 ∧
      (linear_transform k m).fwd = (FixedLinearTransformClass k m).fwd ∧
      (linear_transform k m).jac = (FixedLinearTransformClass k m).jac ∧
      (linear_transform k m).odims = (FixedLinearTransformClass k m).odims) ∧
    (((conv_1x1 bt c h w).init M).1 =
        "DeprecationWarning" :: ((Fixed1x1ConvClass bt c h w).init M).1 ∧
      ((conv_1x1 bt c h w).init M).2 = ((Fixed1x1ConvClass bt c h w).init M).2 ∧
      (conv_1x1 bt c h w).fwd = (Fixed1x1ConvClass bt c h w).fwd ∧
      (conv_1x1 bt c h w).jac = (Fixed1x1ConvClass bt c h w).jac ∧
      (conv_1x1 bt c h w).odims = (Fixed1x1ConvClass bt c h w).odims) :=
  ⟨⟨rfl, rfl, rfl, rfl, rfl⟩, ⟨rfl, rfl, rfl, rfl, rfl⟩,
   ⟨rfl, rfl, rfl, rfl, rfl⟩⟩

/-- Witness for C10 with concrete constructor arguments. -/
theorem claim10_witness :
    ((permute_layer 2 1).init (Equiv.swap (0 : Fin 2) 1)).1 =
      "DeprecationWarning" ::
        ((PermuteRandomClass 2 1).init (Equiv.swap (0 : Fin 2) 1)).1 ∧
    (permute_layer 2 1).fwd = (PermuteRandomClass 2 1).fwd ∧
    (linear_transform 1 1).fwd = (FixedLinearTransformClass 1 1).fwd ∧
    (conv_1x1 1 1 1 1).fwd = (Fixed1x1ConvClass 1 1 1 1).fwd :=
  ⟨(claim10_deprecated_aliases 2 1 1 1 1 1 1 1 (Equiv.swap 0 1)
      (!![(1 : ℚ)], fun _ => 0, !![(1 : ℝ)]) !![(1 : ℚ)]).1.1,
   (claim10_deprecated_aliases 2 1 1 1 1 1 1 1 (Equiv.swap 0 1)
      (!![(1 : ℚ)], fun _ => 0, !![(1 : ℝ)]) !![(1 : ℚ)]).1.2.2.1,
   (claim10_deprecated_aliases 2 1 1 1 1 1 1 1 (Equiv.swap 0 1)
      (!![(1 : ℚ)], fun _ => 0, !![(1 : ℝ)]) !![(1 : ℚ)]).2.1.2.2.1,
   (claim10_deprecated_aliases 2 1 1 1 1 1 1 1 (Equiv.swap 0 1)
      (!![(1 : ℚ)], fun _ => 0, !![(1 : ℝ)]) !![(1 : ℚ)]).2.2.2.2.1⟩

end FrEIA
